import Mathlib

/-!
Shallow embedding of the `genimage` pixel-format codec
(`src/format.rs`, `src/pixel/mod.rs`, `src/pixel/convert_format.rs`,
`src/lib.rs`, `src/color.rs`) in Lean 4.

Modelling conventions:
* Machine integers (`u8`, `u16`, `u32`) are `Nat`, with explicit `% 256`
  (resp. masking) exactly where the Rust code truncates.
* The build target is little-endian, so `Endianness::NATIVE = Little`
  (mirroring `#[cfg(target_endian = "little")]`).
* Fallible operations (Rust panics) are `Option`.
* `f32` values are modelled as exact rationals (`ℚ`).  Every concrete
  float computation appearing in a theorem below is exact in IEEE-754
  `f32` as well (sums/products of small dyadic rationals), so the model
  agrees with the source at every evaluated point.
-/

namespace Genimage

/-- The four channel kinds, `format.rs` `enum Channel`. -/
inductive Channel where
  | Red
  | Green
  | Blue
  | Alpha
deriving DecidableEq, Repr

/-- Rust `impl Default for Channel` returns `Alpha`. -/
instance : Inhabited Channel := ⟨Channel.Alpha⟩

/-- The color type, `format.rs` `enum ColorType`. -/
inductive ColorType where
  | Argb
  | Rgba
  | Abgr
  | Bgra
  | Alpha
  | ArgbFloat
deriving DecidableEq, Repr

/-- Channel order of a color type, `ColorType::channels`.  The `Alpha`
variant builds `ArrayVec::from_array_len([Alpha; 4], 1)`, i.e. a
single-element sequence. -/
def ColorType.channels : ColorType → List Channel
  | .Argb => [.Alpha, .Red, .Green, .Blue]
  | .Rgba => [.Red, .Green, .Blue, .Alpha]
  | .Abgr => [.Alpha, .Blue, .Green, .Red]
  | .Bgra => [.Blue, .Green, .Red, .Alpha]
  | .Alpha => [.Alpha]
  | .ArgbFloat => [.Alpha, .Red, .Green, .Blue]

/-- Whether the color type involves floats, `ColorType::involves_float`. -/
def ColorType.involvesFloat : ColorType → Bool
  | .ArgbFloat => true
  | _ => false

/-- Encode a real channel bit width into its 4-bit nibble,
`convert_to_channels_repr`.  The `const_panic!` arm is `none`. -/
def convertToChannelsRepr (numBits : Nat) : Option Nat :=
  if numBits ≤ 8 then some numBits
  else if numBits = 10 then some 9
  else if numBits = 16 then some 10
  else if numBits = 32 then some 11
  else none

/-- Decode the 4-bit nibble back into the real channel bit width,
`convert_from_channels_repr`.  The source's `const_panic!` macro
expands to the literal `0` on pre-1.57 toolchains, which is what the
final arm returns here; it is unreachable for nibbles produced by
`Channels::new`. -/
def convertFromChannelsRepr (numBits : Nat) : Nat :=
  if numBits ≤ 8 then numBits
  else if numBits = 9 then 10
  else if numBits = 10 then 16
  else if numBits = 11 then 32
  else 0

/-- Nibble shifts `ALPHA_SHIFT`/`RED_SHIFT`/`GREEN_SHIFT`/`BLUE_SHIFT`. -/
def channelShift : Channel → Nat
  | .Alpha => 12
  | .Red => 8
  | .Green => 4
  | .Blue => 0

/-- Pack the four channel widths into one 16-bit word, `Channels::new`.
Fails (`none`) when a width is outside `(0..=8, 10, 16, 32)`. -/
def Channels.new (alpha red green blue : Nat) : Option Nat :=
  match convertToChannelsRepr alpha, convertToChannelsRepr red,
      convertToChannelsRepr green, convertToChannelsRepr blue with
  | some a, some r, some g, some b =>
      some ((a <<< 12) ||| (r <<< 8) ||| (g <<< 4) ||| (b <<< 0))
  | _, _, _, _ => none

/-- Round the bits-per-pixel argument per the `match` in `Format::new`. -/
def roundBpp (bpp : Nat) : Nat :=
  if bpp ≤ 1 then 1
  else if bpp ≤ 4 then 4
  else if bpp ≤ 8 then 8
  else if bpp ≤ 16 then 16
  else if bpp ≤ 24 then 24
  else if bpp ≤ 32 then 32
  else if bpp ≤ 96 then 96
  else 128

/-- An image format, `format.rs` `struct Format`; `channels` is the
packed 16-bit word of channel-width nibbles. -/
structure Format where
  bpp : Nat
  colorType : ColorType
  channels : Nat
deriving DecidableEq, Repr

/-- Construct a format, `Format::new`.  The bpp is rounded; invalid
channel widths make construction fail (the source's `const_panic!`). -/
def Format.new (bpp : Nat) (colorType : ColorType)
    (alphaBits redBits greenBits blueBits : Nat) : Option Format :=
  (Channels.new alphaBits redBits greenBits blueBits).map fun chans =>
    ⟨roundBpp bpp, colorType, chans⟩

/-- Width of the alpha channel, `Format::alpha_bits`. -/
def Format.alphaBits (f : Format) : Nat :=
  convertFromChannelsRepr ((f.channels >>> 12) &&& 15)

/-- Width of the red channel, `Format::red_bits`. -/
def Format.redBits (f : Format) : Nat :=
  convertFromChannelsRepr ((f.channels >>> 8) &&& 15)

/-- Width of the green channel, `Format::green_bits`. -/
def Format.greenBits (f : Format) : Nat :=
  convertFromChannelsRepr ((f.channels >>> 4) &&& 15)

/-- Width of the blue channel, `Format::blue_bits`. -/
def Format.blueBits (f : Format) : Nat :=
  convertFromChannelsRepr ((f.channels >>> 0) &&& 15)

/-- Width of a given channel, `Format::bits_for_channel`. -/
def Format.bitsForChannel (f : Format) : Channel → Nat
  | .Alpha => f.alphaBits
  | .Red => f.redBits
  | .Green => f.greenBits
  | .Blue => f.blueBits

/-- Bytes per pixel, `Format::bytes`. -/
def Format.bytes (f : Format) : Nat :=
  match f.bpp with
  | 1 => 1
  | 4 => 1
  | bpp => bpp / 8

/-- Sub-byte flag, `Format::subbyte`. -/
def Format.subbyte (f : Format) : Bool :=
  f.bpp < 8

/-- Float flag, `Format::involves_float`. -/
def Format.involvesFloat (f : Format) : Bool :=
  f.colorType.involvesFloat

/-- Information about one channel of a format, `struct ChannelInfo`. -/
structure ChannelInfo where
  bits : Nat
  shift : Nat
  channel : Channel
deriving DecidableEq, Repr

/-- State of the channel iterator, `struct ChannelIter`:
`shift` is the front cursor, `shiftBack` the back cursor, `channels`
the remaining color-type channel order. -/
structure ChannelIter where
  format : Format
  shift : Nat
  shiftBack : Nat
  channels : List Channel
deriving DecidableEq, Repr

/-- Fresh channel iterator, `ChannelIter::new` as invoked by
`Format::channels()`: front cursor 0, back cursor `bpp`. -/
def Format.channelIter (f : Format) : ChannelIter :=
  ⟨f, 0, f.bpp, f.colorType.channels⟩

/-- Repeated `ChannelIter::next` as a list: check the cursors, pull the
next channel, skip zero-width entries, emit `shift` = front cursor and
advance the front cursor by the width. -/
def nextList (f : Format) (shift shiftBack : Nat) : List Channel → List ChannelInfo
  | [] => []
  | c :: rest =>
      if shift = shiftBack then []
      else
        let bits := f.bitsForChannel c
        if bits = 0 then nextList f shift shiftBack rest
        else ⟨bits, shift, c⟩ :: nextList f (shift + bits) shiftBack rest

/-- Repeated `ChannelIter::next_back` as a list.  The argument list is
the REVERSE of the remaining channel order (`next_back` pulls from the
rear).  Exactly as in the source: the emitted `shift` is the
pre-decrement back cursor `shift_back`, and the decremented value
`shift_back.saturating_sub(bits)` is stored into the FRONT cursor
`self.shift`; `shift_back` itself is never changed. -/
def nextBackList (f : Format) (shift shiftBack : Nat) : List Channel → List ChannelInfo
  | [] => []
  | c :: rest =>
      if shift = shiftBack then []
      else
        let bits := f.bitsForChannel c
        if bits = 0 then nextBackList f shift shiftBack rest
        else ⟨bits, shiftBack, c⟩ :: nextBackList f (shiftBack - bits) shiftBack rest

/-- Full forward traversal of a channel iterator. -/
def ChannelIter.toList (it : ChannelIter) : List ChannelInfo :=
  nextList it.format it.shift it.shiftBack it.channels

/-- Full backward traversal of a channel iterator. -/
def ChannelIter.toListBack (it : ChannelIter) : List ChannelInfo :=
  nextBackList it.format it.shift it.shiftBack it.channels.reverse

/-- Recursion of `ChannelIter::len`: walk the FULL color-type channel
order of the format with a running cumulative shift, counting channels
whose cumulative shift lies strictly between the two cursors. -/
def lenAux (f : Format) (shift shiftBack : Nat) : Nat → List Channel → Nat
  | _, [] => 0
  | cur, c :: rest =>
      let cur2 := cur + f.bitsForChannel c
      (if shift < cur2 ∧ cur2 < shiftBack then 1 else 0)
        + lenAux f shift shiftBack cur2 rest

/-- Exact length reported by the iterator, `ChannelIter::len`. -/
def ChannelIter.len (it : ChannelIter) : Nat :=
  lenAux it.format it.shift it.shiftBack 0 it.format.colorType.channels

/-- The `count` override of `ChannelIter` simply returns `len`. -/
def ChannelIter.count (it : ChannelIter) : Nat :=
  it.len

/-- The channel descriptor list of a format: forward traversal of
`Format::channels()`. -/
def Format.channelList (f : Format) : List ChannelInfo :=
  f.channelIter.toList

/-- Byte order, `lib.rs` `enum Endianness`. -/
inductive Endianness where
  | Little
  | Big
deriving DecidableEq, Repr

/-- The native endianness of the build target.  The target is
little-endian (`#[cfg(target_endian = "little")]`). -/
def Endianness.NATIVE : Endianness := .Little

/-- Whether this endianness matches the native one,
`Endianness::is_native`. -/
def Endianness.isNative (e : Endianness) : Bool :=
  e = Endianness.NATIVE

/-- Assemble a 16-bit value from two bytes, `Endianness::make_u16`
(`u16::from_le_bytes` / `u16::from_be_bytes`). -/
def Endianness.makeU16 (e : Endianness) (b0 b1 : Nat) : Nat :=
  match e with
  | .Little => b0 + 256 * b1
  | .Big => b1 + 256 * b0

/-- Assemble a 32-bit value from four bytes, `Endianness::make_u32`
(`u32::from_le_bytes` / `u32::from_be_bytes`). -/
def Endianness.makeU32 (e : Endianness) (b0 b1 b2 b3 : Nat) : Nat :=
  match e with
  | .Little => b0 + 256 * b1 + 65536 * b2 + 16777216 * b3
  | .Big => b3 + 256 * b2 + 65536 * b1 + 16777216 * b0

/-- The `LOW_BIT_MASKS` table: entry `n` is built by iterating
`current = (current << 1) | 1` from 0, i.e. the mask of the `n`
lowest bits. -/
def lowBitMask : Nat → Nat
  | 0 => 0
  | n + 1 => (lowBitMask n <<< 1) ||| 1

/-- The native-endian (little) byte representation of a `u32`, as
produced by `bytemuck::bytes_of(&u32)` on the build target. -/
def u32LeBytes (d : Nat) : List Nat :=
  [d % 256, d / 256 % 256, d / 65536 % 256, d / 16777216 % 256]

/-- Byte-swap of a `u32`, `u32::swap_bytes`. -/
def u32SwapBytes (d : Nat) : Nat :=
  ((d &&& 255) <<< 24) ||| (((d >>> 8) &&& 255) <<< 16) |||
    (((d >>> 16) &&& 255) <<< 8) ||| ((d >>> 24) &&& 255)

/-- Byte-swapping the bit pattern of an `f32`
(`f32::from_bits(val.to_bits().swap_bytes())`).  The bit-level
representation of a float has no counterpart on exact rationals, so
the swap is modelled as the identity; it is only reached for float
target formats at non-native endianness, which no theorem below
examines. -/
def f32SwapBytes (x : ℚ) : ℚ := x

/-- The payload of a pixel, `pixel/mod.rs` `enum Value`: a packed
integer with a sub-byte bit offset, or four floats. -/
inductive Value where
  | nonFloat (data : Nat) (index : Nat)
  | float (data : List ℚ)
deriving DecidableEq, Repr

/-- A pixel, `pixel/mod.rs` `struct Pixel`. -/
structure Pixel where
  value : Value
  format : Format
  endianness : Endianness
deriving DecidableEq, Repr

/-- Decode raw bytes into a non-float pixel, `Pixel::from_bytes`.
The `panic!("has {} bytes, expected 1..=4")` arm is `none`. -/
def Pixel.fromBytes (b0 b1 b2 b3 : Nat) (index : Nat) (endian : Endianness)
    (format : Format) : Option Pixel :=
  match format.bytes with
  | 1 => some ⟨.nonFloat b0 index, format, endian⟩
  | 2 => some ⟨.nonFloat (endian.makeU16 b0 b1) index, format, endian⟩
  | 3 => some ⟨.nonFloat (endian.makeU32 b0 b1 b2 b3) index, format, endian⟩
  | 4 => some ⟨.nonFloat (endian.makeU32 b0 b1 b2 b3) index, format, endian⟩
  | _ => none

/-- Extract the raw per-channel values of a packed pixel,
`iter_channels`: shift the data right by `index`, then for each
channel descriptor mask out `bits` bits at `shift`. -/
def iterChannels (data : Nat) (index : Nat) (format : Format) : List Nat :=
  format.channelList.map fun channelInfo =>
    ((data >>> index) >>> channelInfo.shift) &&& lowBitMask channelInfo.bits

/-- The float components of a pixel, `Pixel::components_float`.  For a
float pixel, the first `bpp / 32` stored slots; for a non-float pixel,
each raw channel value divided by 255 (these quotients are modelled
exactly; for the concrete values appearing in theorems below, 255/255
and 0/255, the `f32` division is exact as well). -/
def Pixel.componentsFloat (p : Pixel) : List ℚ :=
  match p.value with
  | .float data => data.take (p.format.bpp / 32)
  | .nonFloat data index =>
      (iterChannels data index p.format).map fun x => (x : ℚ) / 255

/-- Equality of pixels, `impl PartialEq for Pixel`: when BOTH pixels
are non-float the comparison returns `(data, index) == (data, index)`
(irrespective of the formats); otherwise it compares the float
component sequences. -/
def pixelEq (p1 p2 : Pixel) : Bool :=
  match p1.value, p2.value with
  | .nonFloat data1 index1, .nonFloat data2 index2 =>
      data1 = data2 ∧ index1 = index2
  | _, _ => p1.componentsFloat = p2.componentsFloat

/-- The sequence of words fed to the hasher by `impl Hash for Pixel`:
the bit pattern of each float component, in order.  `f32::to_bits` is
injective on the values that occur here, so the stream is modelled by
the component values themselves; two pixels hash identically exactly
when their streams coincide. -/
def Pixel.hashStream (p : Pixel) : List ℚ :=
  p.componentsFloat

/-- An extracted channel value, `struct ChannelValue`. -/
structure ChannelValue where
  channelType : Channel
  value : Nat
  floatValue : Option ℚ
deriving DecidableEq, Repr

/-- Integer-only constructor, `ChannelValue::new`. -/
def ChannelValue.new (channelType : Channel) (value : Nat) : ChannelValue :=
  ⟨channelType, value, none⟩

/-- Rust's saturating-truncating `f32 as u8` cast: truncate toward
zero, clamp to `0..=255`.  (For the clamped range, truncation toward
zero coincides with the floor.) -/
def f32ToU8 (q : ℚ) : Nat :=
  (max 0 (min 255 ⌊q⌋)).toNat

/-- Float constructor, `ChannelValue::new_with_float`: the integer
projection is `(value * 255.0) as u8`; the float anchor is
`NotNan::new(value).ok()`, which always succeeds in the rational model
(no NaN). -/
def ChannelValue.newWithFloat (channelType : Channel) (value : ℚ) : ChannelValue :=
  ⟨channelType, f32ToU8 (value * 255), some value⟩

/-- Recover the float value, `ChannelValue::float_value`: the anchor
when present, else `value / 255.0`. -/
def ChannelValue.floatVal (cv : ChannelValue) : ℚ :=
  match cv.floatValue with
  | some x => x
  | none => (cv.value : ℚ) / 255

/-- Channel information of a pixel, `Pixel::channel_info`.  Note that
both branches zip per-present-channel values against the FULL
color-type channel order (`self.format.color_type().channels()`),
which does not skip zero-width channels. -/
def Pixel.channelInfo (p : Pixel) : List ChannelValue :=
  match p.value with
  | .float _ =>
      (p.componentsFloat.zip p.format.colorType.channels).map
        fun xc => ChannelValue.newWithFloat xc.2 xc.1
  | .nonFloat data index =>
      ((iterChannels data index p.format).zip p.format.colorType.channels).map
        fun xc => ChannelValue.new xc.2 xc.1

/-- Build a pixel from channel values, `Pixel::collect_channels`. -/
def Pixel.collectChannels (endianness : Endianness) (format : Format)
    (chans : List ChannelValue) : Pixel :=
  let ourChannels := format.channelList
  let nonNativeEndian := !endianness.isNative
  if format.involvesFloat then
    let data := chans.foldl
      (fun acc channelValue =>
        match ourChannels.findIdx?
            (fun channelInfo => channelValue.channelType = channelInfo.channel) with
        | some posn =>
            let val := channelValue.floatVal
            let val := if nonNativeEndian then f32SwapBytes val else val
            acc.set posn val
        | none => acc)
      [0, 0, 0, 0]
    ⟨.float data, format, endianness⟩
  else
    let data := chans.foldl
      (fun acc channelValue =>
        match ourChannels.find?
            (fun channelInfo => channelInfo.channel = channelValue.channelType) with
        | some channelInfo =>
            acc ||| ((channelValue.value &&& lowBitMask channelInfo.bits)
              <<< channelInfo.shift)
        | none => acc)
      0
    let data := if nonNativeEndian then u32SwapBytes data else data
    ⟨.nonFloat data 0, format, endianness⟩

/-- Cross-format conversion, `convert_format.rs` `convert_to_format`
(the body of `Pixel::into_new_format`): no-op fast path when format
and endianness already match, else extract then re-collect. -/
def Pixel.intoNewFormat (p : Pixel) (endian : Endianness) (format : Format) : Pixel :=
  if p.format = format ∧ p.endianness = endian then p
  else Pixel.collectChannels endian format p.channelInfo

/-- Write a pixel into the byte slice of one pixel, `Pixel::insert`.
Sub-byte non-float pixels read-modify-write the first byte with
`mask = (LOW_BIT_MASKS[bpp] as u8) << index` (`u8` arithmetic, hence
the `% 256`; `!mask` on `u8` is `255 ^^^ mask`); byte-aligned
non-float pixels copy the first `bytes()` native-endian bytes of
`data`.  The float arm copies the native bytes of the four `f32`s,
which has no counterpart in the rational model; no claim below
concerns it, so it leaves the buffer unchanged. -/
def Pixel.insert (p : Pixel) (bytes : List Nat) : List Nat :=
  match p.value with
  | .nonFloat data index =>
      if p.format.subbyte then
        let mask := ((lowBitMask p.format.bpp % 256) <<< index) % 256
        let d := (data % 256) &&& mask
        bytes.set 0 (((bytes.headD 0) &&& (255 ^^^ mask)) ||| d)
      else
        let cnt := p.format.bytes
        (u32LeBytes data).take cnt ++ bytes.drop cnt
  | .float _ => bytes

/-- The sub-byte index of a non-float pixel (`Value::NonFloat.index`),
`none` for float pixels. -/
def Pixel.nfIndex : Pixel → Option Nat
  | ⟨.nonFloat _ index, _, _⟩ => some index
  | _ => none

/-- The catalogue format `Format::ARGB32`. -/
def fmtARGB32 : Format := (Format.new 32 .Argb 8 8 8 8).get (by decide)

/-- The catalogue format `Format::XRGB32`. -/
def fmtXRGB32 : Format := (Format.new 32 .Argb 0 8 8 8).get (by decide)

/-- The catalogue format `Format::RGBA32`. -/
def fmtRGBA32 : Format := (Format.new 32 .Rgba 8 8 8 8).get (by decide)

/-- The catalogue format `Format::RGB24`. -/
def fmtRGB24 : Format := (Format.new 24 .Argb 0 8 8 8).get (by decide)

/-- The catalogue format `Format::ARGB16`. -/
def fmtARGB16 : Format := (Format.new 16 .Argb 4 4 4 4).get (by decide)

/-- The catalogue format `Format::A8`. -/
def fmtA8 : Format := (Format.new 8 .Alpha 8 0 0 0).get (by decide)

/-- The catalogue format `Format::A1`. -/
def fmtA1 : Format := (Format.new 1 .Alpha 1 0 0 0).get (by decide)

/-- The catalogue format `Format::ARGB_F32`. -/
def fmtARGBF32 : Format := (Format.new 128 .ArgbFloat 32 32 32 32).get (by decide)

/-- A non-float format with 96 bits per pixel (12 bytes per pixel),
`Format::new(96, ColorType::Argb, 32, 32, 32, 32)`. -/
def fmt96 : Format := (Format.new 96 .Argb 32 32 32 32).get (by decide)

/-- The pixel `Pixel::from_bytes([255, 255, 255, 0], 0, Little, ARGB32)`
from the repository's own `test_pixels()`. -/
def pxArgb32White0 : Pixel := ⟨.nonFloat 16777215 0, fmtARGB32, .Little⟩

/-- The pixel `Pixel::from_bytes([255, 255, 255, 0], 0, Little, RGB24)`
from the repository's own `test_pixels()`. -/
def pxRgb24White : Pixel := ⟨.nonFloat 16777215 0, fmtRGB24, .Little⟩

/-- The pixel `Pixel::from_bytes([255, 255, 255, 255], 0, Little, ARGB32)`
(all-white, fully opaque). -/
def pxArgb32AllWhite : Pixel := ⟨.nonFloat 4294967295 0, fmtARGB32, .Little⟩

/-- The ARGB-FLOAT pixel whose four components are all `1.0`
(as produced by `Pixel::from_float_bytes` on the bytes of four `1.0f32`). -/
def pxFloatAllOne : Pixel := ⟨.float [1, 1, 1, 1], fmtARGBF32, .Little⟩

/-! ### Helper lemmas -/

/-- A `u8` mask is disjoint from its `u8` complement `255 ^^^ m`. -/
lemma xorMask_land_self {m : Nat} (hm : m < 256) : (255 ^^^ m) &&& m = 0 := by
  apply Nat.eq_of_testBit_eq
  intro i
  simp only [Nat.testBit_and, Nat.testBit_xor, Nat.zero_testBit]
  by_cases h8 : i < 8
  · have h255 : (255 : Nat).testBit i = true := by
      have he : (255 : Nat) = 2 ^ 8 - 1 := by norm_num
      rw [he, Nat.testBit_two_pow_sub_one]
      simpa using h8
    rw [h255]
    cases m.testBit i <;> simp
  · have hmi : m.testBit i = false := by
      apply Nat.testBit_lt_two_pow
      calc m < 256 := hm
        _ = 2 ^ 8 := by norm_num
        _ ≤ 2 ^ i := Nat.pow_le_pow_right (by norm_num) (by omega)
    rw [hmi]
    simp

/-- Masking a two-part OR by the second mask keeps only the second part,
when the masks are disjoint. -/
lemma land_lor_masked_right (x y a b : Nat) (h : a &&& b = 0) :
    ((x &&& a) ||| (y &&& b)) &&& b = y &&& b := by
  apply Nat.eq_of_testBit_eq
  intro i
  have hi := congrArg (fun n => Nat.testBit n i) h
  simp only [Nat.testBit_and, Nat.zero_testBit] at hi
  simp only [Nat.testBit_and, Nat.testBit_or]
  cases ha : a.testBit i <;> cases hb : b.testBit i <;> simp_all

/-- Masking a two-part OR by the first mask keeps only the first part,
when the masks are disjoint. -/
lemma land_lor_masked_left (x y a b : Nat) (h : a &&& b = 0) :
    ((x &&& a) ||| (y &&& b)) &&& a = x &&& a := by
  apply Nat.eq_of_testBit_eq
  intro i
  have hi := congrArg (fun n => Nat.testBit n i) h
  simp only [Nat.testBit_and, Nat.zero_testBit] at hi
  simp only [Nat.testBit_and, Nat.testBit_or]
  cases ha : a.testBit i <;> cases hb : b.testBit i <;> simp_all

/-! ### Claim theorems -/

/-- C1: the claim states that `channels().count()` (which returns
`ChannelIter::len()`) equals the number of nonzero-width channels — 4
for RGBA32, 1 for A8, 3 for XRGB32.  The code disagrees: `len()`
requires the cumulative shift to be STRICTLY below the back cursor
(`current_shift < self.shift_back`), so the last channel is dropped
whenever the widths sum to `bpp`.  Evaluating the code: RGBA32 reports
3 (iteration yields 4 items), A8 reports 0 (iteration yields 1),
XRGB32 reports 3 (correct only because its widths sum to 24 < 32). -/
theorem channel_count_at_failing_inputs :
    fmtRGBA32.channelIter.count = 3 ∧ fmtRGBA32.channelList.length = 4
      ∧ fmtA8.channelIter.count = 0 ∧ fmtA8.channelList.length = 1
      ∧ fmtXRGB32.channelIter.count = 3 ∧ fmtXRGB32.channelList.length = 3 := by
  decide

/-- C4: the claim states that backward traversal yields the forward
entries in reverse order, agreeing on every channel's shift.  The code
disagrees: `next_back` emits `shift = self.shift_back` (pre-decrement)
and stores the decrement into `self.shift`, never moving `shift_back`,
so every backward entry of RGBA32 carries shift 32 while the reversed
forward entries carry shifts 24, 16, 8, 0. -/
theorem backward_iteration_at_failing_input :
    fmtRGBA32.channelIter.toListBack
        = [⟨8, 32, .Alpha⟩, ⟨8, 32, .Blue⟩, ⟨8, 32, .Green⟩, ⟨8, 32, .Red⟩]
      ∧ fmtRGBA32.channelList.reverse
        = [⟨8, 24, .Alpha⟩, ⟨8, 16, .Blue⟩, ⟨8, 8, .Green⟩, ⟨8, 0, .Red⟩]
      ∧ fmtRGBA32.channelIter.toListBack ≠ fmtRGBA32.channelList.reverse := by
  refine ⟨by decide, by decide, ?_⟩
  decide

/-- C2: the claim states that `p1 == p2` implies equal hashes for ALL
pixels.  The code disagrees: the non-float equality fast path compares
only `(data, index)`, ignoring the formats, so the ARGB32 and RGB24
pixels decoded from bytes `[255, 255, 255, 0]` (both `data =
0xFFFFFF`, `index = 0`) compare equal — yet hashing feeds the
per-format float component sequence to the hasher, four components
`[1, 1, 1, 0]` for the ARGB32 pixel versus three components
`[1, 1, 1]` for the RGB24 pixel, so the hashed streams differ (this
exact pair sits in the repository's own `test_pixels()`, making its
`partial_eq_implies_hash_eq` test fail).  The claim's highlighted
positive example does hold: the all-white ARGB32 pixel and the
all-1.0 ARGB-FLOAT pixel are equal and have identical hash streams. -/
theorem eq_hash_at_failing_input :
    Pixel.fromBytes 255 255 255 0 0 .Little fmtARGB32 = some pxArgb32White0
      ∧ Pixel.fromBytes 255 255 255 0 0 .Little fmtRGB24 = some pxRgb24White
      ∧ pixelEq pxArgb32White0 pxRgb24White = true
      ∧ pxArgb32White0.hashStream ≠ pxRgb24White.hashStream
      ∧ pixelEq pxArgb32AllWhite pxFloatAllOne = true
      ∧ pxArgb32AllWhite.hashStream = pxFloatAllOne.hashStream := by
  have hcomp : pxArgb32AllWhite.componentsFloat = pxFloatAllOne.componentsFloat := by
    have h1 : fmtARGB32.channelList
        = [⟨8, 0, .Alpha⟩, ⟨8, 8, .Red⟩, ⟨8, 16, .Green⟩, ⟨8, 24, .Blue⟩] := by decide
    simp [pxArgb32AllWhite, pxFloatAllOne, Pixel.componentsFloat, iterChannels, h1]
    rw [show (4294967295 &&& lowBitMask 8) = 255 from by decide,
      show (16777215 &&& lowBitMask 8) = 255 from by decide,
      show (65535 &&& lowBitMask 8) = 255 from by decide,
      show (255 &&& lowBitMask 8) = 255 from by decide,
      show fmtARGBF32.bpp = 128 from by decide]
    norm_num
  refine ⟨rfl, rfl, by decide, ?_, ?_, hcomp⟩
  · intro h
    have h2 := congrArg List.length h
    simp [pxArgb32White0, pxRgb24White, Pixel.hashStream, Pixel.componentsFloat,
      iterChannels] at h2
    revert h2
    decide
  · simp [pixelEq, pxArgb32AllWhite, pxFloatAllOne]
    exact hcomp

/-- Mapping the first projection over a zip takes the first list,
truncated to the second list's length. -/
lemma map_fst_zip_take {α β : Type} :
    ∀ (a : List α) (b : List β), (a.zip b).map (fun p => p.1) = a.take b.length
  | [], _ => by simp
  | _ :: _, [] => by simp
  | x :: a, y :: b => by
      simp [List.zip_cons_cons, map_fst_zip_take a b]

/-- Mapping the second projection over a zip takes the second list,
truncated to the first list's length. -/
lemma map_snd_zip_take {α β : Type} :
    ∀ (a : List α) (b : List β), (a.zip b).map (fun p => p.2) = b.take a.length
  | [], _ => by simp
  | _ :: _, [] => by simp
  | x :: a, y :: b => by
      simp [List.zip_cons_cons, map_snd_zip_take a b]

/-- C9: for a non-float pixel, `channel_info()` zips the values
extracted from the PRESENT (nonzero-width) channel descriptors
against the FULL canonical channel order of the color type (which
does not skip zero-width channels): the i-th `ChannelValue` is tagged
with the i-th canonical channel while its numeric value comes from the
i-th present descriptor.  Hence for XRGB32 (zero-width alpha ordered
first) the tags `[Alpha, Red, Green]` do not correspond to the
descriptors `[Red, Green, Blue]` whose values were extracted: on the
pixel with data `0x00332211`, alpha is reported as `0x11` (the red
byte), red as `0x22` (the green byte), green as `0x33` (the blue
byte), and blue is not reported at all. -/
theorem channel_info_tags_shifted :
    (∀ (f : Format) (data idx : Nat) (e : Endianness),
        (Pixel.channelInfo ⟨.nonFloat data idx, f, e⟩).map (fun cv => cv.channelType)
            = f.colorType.channels.take (iterChannels data idx f).length
          ∧ (Pixel.channelInfo ⟨.nonFloat data idx, f, e⟩).map (fun cv => cv.value)
            = (iterChannels data idx f).take f.colorType.channels.length)
      ∧ (Pixel.channelInfo ⟨.nonFloat 3351057 0, fmtXRGB32, .Little⟩).map
            (fun cv => cv.channelType) = [.Alpha, .Red, .Green]
      ∧ fmtXRGB32.channelList.map (fun ci => ci.channel) = [.Red, .Green, .Blue]
      ∧ (Pixel.channelInfo ⟨.nonFloat 3351057 0, fmtXRGB32, .Little⟩).map
            (fun cv => cv.value) = [17, 34, 51]
      ∧ (Pixel.channelInfo ⟨.nonFloat 3351057 0, fmtXRGB32, .Little⟩).map
            (fun cv => cv.channelType)
          ≠ fmtXRGB32.channelList.map (fun ci => ci.channel) := by
  refine ⟨fun f data idx e => ?_, by decide, by decide, by decide, by decide⟩
  constructor
  · rw [show (Pixel.channelInfo ⟨.nonFloat data idx, f, e⟩).map (fun cv => cv.channelType)
        = ((iterChannels data idx f).zip f.colorType.channels).map (fun p => p.2) from by
      simp [Pixel.channelInfo, ChannelValue.new]]
    rw [map_snd_zip_take]
  · rw [show (Pixel.channelInfo ⟨.nonFloat data idx, f, e⟩).map (fun cv => cv.value)
        = ((iterChannels data idx f).zip f.colorType.channels).map (fun p => p.1) from by
      simp [Pixel.channelInfo, ChannelValue.new]]
    rw [map_fst_zip_take]

/-- Shared helper for C10: the non-float branch of `collect_channels`
constructs its `Value::NonFloat` with a literal `index: 0`. -/
lemma collectChannels_nfIndex (e : Endianness) (f : Format) (cs : List ChannelValue)
    (hf : f.involvesFloat = false) :
    (Pixel.collectChannels e f cs).nfIndex = some 0 := by
  simp [Pixel.collectChannels, hf, Pixel.nfIndex]

/-- C10: for every non-float target format, `collect_channels` yields a
pixel with sub-byte index 0 (the code writes `index: 0` literally); and
`into_new_format` does the same whenever the no-op fast path is not
taken, so a sub-byte source pixel's index is never carried over. -/
theorem collect_channels_index_zero :
    (∀ (e : Endianness) (f : Format) (cs : List ChannelValue),
        f.involvesFloat = false →
          (Pixel.collectChannels e f cs).nfIndex = some 0)
      ∧ (∀ (p : Pixel) (e : Endianness) (f : Format),
          f.involvesFloat = false →
          ¬(p.format = f ∧ p.endianness = e) →
            (p.intoNewFormat e f).nfIndex = some 0) := by
  refine ⟨collectChannels_nfIndex, fun p e f hf hne => ?_⟩
  rw [Pixel.intoNewFormat, if_neg hne]
  exact collectChannels_nfIndex e f p.channelInfo hf

/-- Witness for C10: the hypotheses are satisfiable — collecting an
alpha value into A8 produces index 0, and converting an A1 pixel whose
index is 3 into A8 also produces index 0. -/
theorem collect_channels_index_zero_witness :
    fmtA8.involvesFloat = false
      ∧ (Pixel.collectChannels .Little fmtA8 [ChannelValue.new .Alpha 7]).nfIndex = some 0
      ∧ (Pixel.intoNewFormat ⟨.nonFloat 8 3, fmtA1, .Little⟩ .Little fmtA8).nfIndex
        = some 0 :=
  ⟨by decide,
    collect_channels_index_zero.1 .Little fmtA8 [ChannelValue.new .Alpha 7] (by decide),
    collect_channels_index_zero.2 ⟨.nonFloat 8 3, fmtA1, .Little⟩ .Little fmtA8
      (by decide) (by decide)⟩

/-- The rounding table exactly as the claim words it: 0..1→1, 2..4→4,
5..8→8, 9..16→16, 17..24→24, 25..32→32, 33..96→96, otherwise 128. -/
def claimRoundTable (bpp : Nat) : Nat :=
  if bpp ≤ 1 then 1
  else if 2 ≤ bpp ∧ bpp ≤ 4 then 4
  else if 5 ≤ bpp ∧ bpp ≤ 8 then 8
  else if 9 ≤ bpp ∧ bpp ≤ 16 then 16
  else if 17 ≤ bpp ∧ bpp ≤ 24 then 24
  else if 25 ≤ bpp ∧ bpp ≤ 32 then 32
  else if 33 ≤ bpp ∧ bpp ≤ 96 then 96
  else 128

/-- C6: for every bpp argument (a `u8`, hence `≤ 255`), a successful
`Format::new` stores and reports the bpp rounded per the claim's
table; in particular bpp 5 reports 8, bpp 0 reports 1, bpp 200
reports 128 (see the witness). -/
theorem format_new_rounds_bpp (bpp : Nat) (ct : ColorType) (a r g b : Nat)
    (f : Format) (hbpp : bpp ≤ 255)
    (hf : Format.new bpp ct a r g b = some f) :
    f.bpp = claimRoundTable bpp := by
  have hb : f.bpp = roundBpp bpp := by
    rcases hch : Channels.new a r g b with _ | chans
    · rw [Format.new, hch] at hf
      exact absurd hf (by simp)
    · rw [Format.new, hch] at hf
      simp only [Option.map_some'] at hf
      cases hf
      rfl
  clear hf
  rw [hb, roundBpp, claimRoundTable]
  split_ifs <;> omega

/-- Witness for C6: `Format::new(5).bpp() = 8`, `Format::new(0).bpp()
= 1`, `Format::new(200).bpp() = 128`. -/
theorem format_new_rounds_bpp_witness :
    ((Format.new 5 .Alpha 8 0 0 0).get (by decide)).bpp = 8
      ∧ ((Format.new 0 .Alpha 1 0 0 0).get (by decide)).bpp = 1
      ∧ ((Format.new 200 .Argb 8 8 8 8).get (by decide)).bpp = 128 := by
  refine ⟨?_, ?_, ?_⟩
  · rw [format_new_rounds_bpp 5 .Alpha 8 0 0 0 _ (by decide) (Option.some_get _).symm]
    decide
  · rw [format_new_rounds_bpp 0 .Alpha 1 0 0 0 _ (by decide) (Option.some_get _).symm]
    decide
  · rw [format_new_rounds_bpp 200 .Argb 8 8 8 8 _ (by decide) (Option.some_get _).symm]
    decide

/-- C7: `from_bytes` succeeds exactly when `format.bytes()` lies in
`1..=4` (outside that range the code panics, modelled as `none`),
and assembles the data as claimed: 1 byte as-is, 2 bytes as a 16-bit
value per the endianness then widened, 3 or 4 bytes as a 32-bit value
per the endianness. -/
theorem from_bytes_assembly (f : Format) (b0 b1 b2 b3 idx : Nat) (e : Endianness) :
    ((Pixel.fromBytes b0 b1 b2 b3 idx e f).isSome ↔ 1 ≤ f.bytes ∧ f.bytes ≤ 4)
      ∧ (f.bytes = 1 →
          Pixel.fromBytes b0 b1 b2 b3 idx e f = some ⟨.nonFloat b0 idx, f, e⟩)
      ∧ (f.bytes = 2 →
          Pixel.fromBytes b0 b1 b2 b3 idx e f
            = some ⟨.nonFloat (e.makeU16 b0 b1) idx, f, e⟩)
      ∧ (f.bytes = 3 ∨ f.bytes = 4 →
          Pixel.fromBytes b0 b1 b2 b3 idx e f
            = some ⟨.nonFloat (e.makeU32 b0 b1 b2 b3) idx, f, e⟩) := by
  rcases hn : f.bytes with _ | _ | _ | _ | _ | k <;>
    simp [Pixel.fromBytes, hn] <;> omega

/-- Witness for C7: the ARGB32 format (4 bytes) decodes to the 32-bit
assembly, and a 96-bpp non-float format (12 bytes per pixel) makes
`from_bytes` fail. -/
theorem from_bytes_assembly_witness :
    Pixel.fromBytes 1 2 3 4 0 .Little fmtARGB32
        = some ⟨.nonFloat (Endianness.makeU32 .Little 1 2 3 4) 0, fmtARGB32, .Little⟩
      ∧ (Pixel.fromBytes 1 2 3 4 0 .Little fmt96).isSome = false := by
  constructor
  · exact (from_bytes_assembly fmtARGB32 1 2 3 4 0 .Little).2.2.2 (Or.inr (by decide))
  · by_contra hcon
    have hs : (Pixel.fromBytes 1 2 3 4 0 .Little fmt96).isSome = true := by
      revert hcon
      cases (Pixel.fromBytes 1 2 3 4 0 .Little fmt96).isSome <;> simp
    have h := (from_bytes_assembly fmt96 1 2 3 4 0 .Little).1.mp hs
    revert h
    decide

/-- The read-modify-write mask used by the sub-byte arm of
`Pixel::insert`: `(LOW_BIT_MASKS[bpp] as u8) << index` in `u8`
arithmetic. -/
def subbyteMask (f : Format) (index : Nat) : Nat :=
  ((lowBitMask f.bpp % 256) <<< index) % 256

/-- A format flagged sub-byte reports at most one byte per pixel. -/
lemma bytes_le_one_of_subbyte (f : Format) (h : f.subbyte = true) : f.bytes ≤ 1 := by
  simp only [Format.subbyte, decide_eq_true_eq] at h
  rcases hbpp : f.bpp with _ | _ | _ | _ | _ | _ | _ | _ | n <;>
    rw [Format.bytes, hbpp] <;> first | decide | omega

/-- C5: for every sub-byte non-float pixel and every destination byte,
`insert` performs the read-modify-write with
`mask = (LOW_BIT_MASKS[bpp] as u8) << index`: the masked bits of the
first destination byte become the pixel's bits, all other bits of that
byte are unchanged, and all later bytes are unchanged.  (The A1
instances of the claim — value 1 at index 3 into `0b0000_0000` gives
`0b0000_1000`, and a pre-set bit 5 is preserved — are evaluated in the
witness.) -/
theorem subbyte_insert_frame (f : Format) (e : Endianness)
    (data idx bh : Nat) (bt : List Nat)
    (hsub : f.subbyte = true) (hidx : idx < 8) :
    ((Pixel.insert ⟨.nonFloat data idx, f, e⟩ (bh :: bt)).headD 0
          &&& subbyteMask f idx
        = (data % 256) &&& subbyteMask f idx)
      ∧ ((Pixel.insert ⟨.nonFloat data idx, f, e⟩ (bh :: bt)).headD 0
          &&& (255 ^^^ subbyteMask f idx)
        = bh &&& (255 ^^^ subbyteMask f idx))
      ∧ (Pixel.insert ⟨.nonFloat data idx, f, e⟩ (bh :: bt)).tail = bt := by
  have hm : subbyteMask f idx < 256 := Nat.mod_lt _ (by norm_num)
  have hdisj : (255 ^^^ subbyteMask f idx) &&& subbyteMask f idx = 0 :=
    xorMask_land_self hm
  simp only [Pixel.insert, hsub, if_true, subbyteMask, List.headD_cons,
    List.set_cons_zero, List.tail_cons]
  refine ⟨?_, ?_, trivial⟩
  · exact land_lor_masked_right bh (data % 256) _ _ hdisj
  · exact land_lor_masked_left bh (data % 256) _ _ hdisj

/-- Witness for C5: the A1 instances from the claim.  The pixel with
`data = 0b1000, index = 3` (decoded value 1 at index 3) inserted into
`0b0000_0000` yields `0b0000_1000`; inserted into `0b0010_0000`
(bit 5 pre-set) it yields `0b0010_1000`, preserving bit 5; and the
frame property instantiates at that input. -/
theorem subbyte_insert_frame_witness :
    (fmtA1.subbyte = true ∧ (3 : Nat) < 8)
      ∧ Pixel.insert ⟨.nonFloat 8 3, fmtA1, .Little⟩ [0] = [8]
      ∧ Pixel.insert ⟨.nonFloat 8 3, fmtA1, .Little⟩ [32] = [40]
      ∧ (Pixel.insert ⟨.nonFloat 8 3, fmtA1, .Little⟩ [32]).headD 0
          &&& (255 ^^^ subbyteMask fmtA1 3)
        = 32 &&& (255 ^^^ subbyteMask fmtA1 3) :=
  ⟨⟨by decide, by decide⟩, by decide, by decide,
    (subbyte_insert_frame fmtA1 .Little 8 3 32 [] (by decide) (by decide)).2.1⟩

/-- C3 counterexample: as stated, the round-trip claim fails.  (a) For
non-native endianness: decoding `[1, 2]` as big-endian ARGB16 gives
`data = 0x0102`, but `insert` copies the NATIVE (little-endian) bytes
of `data`, writing `[2, 1]` — the bytes come back reversed.  (b) For a
sub-byte format with a zeroed buffer: decoding byte `0b10` as A1 at
index 0 and inserting writes only the single masked bit (which is 0),
yielding `[0]`, not `[2]`. -/
theorem roundtrip_counterexample :
    Pixel.fromBytes 1 2 0 0 0 .Big fmtARGB16
        = some ⟨.nonFloat 258 0, fmtARGB16, .Big⟩
      ∧ (Pixel.insert ⟨.nonFloat 258 0, fmtARGB16, .Big⟩ [0, 0]).take fmtARGB16.bytes
        = [2, 1]
      ∧ ([2, 1] : List Nat) ≠ [1, 2]
      ∧ Pixel.fromBytes 2 0 0 0 0 .Little fmtA1
        = some ⟨.nonFloat 2 0, fmtA1, .Little⟩
      ∧ Pixel.insert ⟨.nonFloat 2 0, fmtA1, .Little⟩ [0] = [0]
      ∧ ([0] : List Nat) ≠ [2] :=
  ⟨rfl, by decide, by decide, rfl, by decide, by decide⟩

/-- C3 amended: the round trip holds at the native (little)
endianness, in the form the code supports.  For byte-aligned formats,
decode-then-insert reproduces the decoded bytes in the first
`format.bytes()` positions for any buffer.  For sub-byte formats,
insert reproduces exactly the pixel's `bpp` bits at bit offset `index`
of the first byte (so the full byte comes back whenever the source
byte's set bits lie inside that mask and the buffer is zeroed), while
all other bits come from the buffer. -/
theorem roundtrip_little_endian_amended (f : Format) (b0 b1 b2 b3 idx : Nat)
    (buf : List Nat) (p : Pixel)
    (hb0 : b0 < 256) (hb1 : b1 < 256) (hb2 : b2 < 256) (hb3 : b3 < 256)
    (hp : Pixel.fromBytes b0 b1 b2 b3 idx .Little f = some p) :
    (f.subbyte = false →
        (p.insert buf).take f.bytes = [b0, b1, b2, b3].take f.bytes)
      ∧ (f.subbyte = true → idx < 8 → ∀ bh bt, buf = bh :: bt →
          ((p.insert buf).headD 0 &&& subbyteMask f idx
              = b0 &&& subbyteMask f idx
            ∧ (p.insert buf).headD 0 &&& (255 ^^^ subbyteMask f idx)
              = bh &&& (255 ^^^ subbyteMask f idx)
            ∧ (p.insert buf).tail = bt)) := by
  rcases hn : f.bytes with _ | _ | _ | _ | _ | k
  · rw [Pixel.fromBytes, hn] at hp
    exact absurd hp (by simp)
  · -- one byte: data is b0 as-is
    rw [Pixel.fromBytes, hn] at hp
    simp only [Option.some.injEq] at hp
    subst hp
    constructor
    · intro hsubf
      simp only [Pixel.insert, hsubf, Bool.false_eq_true, if_false, hn, u32LeBytes]
      simp [Nat.mod_eq_of_lt hb0]
    · intro hsubt hidx bh bt hbuf
      subst hbuf
      have h := subbyte_insert_frame f .Little b0 idx bh bt hsubt hidx
      rw [Nat.mod_eq_of_lt hb0] at h
      exact h
  · -- two bytes: data is the 16-bit little-endian assembly
    rw [Pixel.fromBytes, hn] at hp
    simp only [Option.some.injEq] at hp
    subst hp
    constructor
    · intro hsubf
      simp only [Pixel.insert, hsubf, Bool.false_eq_true, if_false, hn, u32LeBytes,
        Endianness.makeU16]
      simp only [List.take_succ_cons, List.take_zero, List.cons_append,
        List.cons.injEq, and_true]
      exact ⟨by omega, by omega⟩
    · intro hsubt
      have := bytes_le_one_of_subbyte f hsubt
      omega
  · -- three bytes: data is the 32-bit little-endian assembly
    rw [Pixel.fromBytes, hn] at hp
    simp only [Option.some.injEq] at hp
    subst hp
    constructor
    · intro hsubf
      simp only [Pixel.insert, hsubf, Bool.false_eq_true, if_false, hn, u32LeBytes,
        Endianness.makeU32]
      simp only [List.take_succ_cons, List.take_zero, List.cons_append,
        List.cons.injEq, and_true]
      exact ⟨by omega, by omega, by omega⟩
    · intro hsubt
      have := bytes_le_one_of_subbyte f hsubt
      omega
  · -- four bytes: data is the 32-bit little-endian assembly
    rw [Pixel.fromBytes, hn] at hp
    simp only [Option.some.injEq] at hp
    subst hp
    constructor
    · intro hsubf
      simp only [Pixel.insert, hsubf, Bool.false_eq_true, if_false, hn, u32LeBytes,
        Endianness.makeU32]
      simp only [List.take_succ_cons, List.take_zero, List.cons_append,
        List.cons.injEq, and_true]
      exact ⟨by omega, by omega, by omega, by omega⟩
    · intro hsubt
      have := bytes_le_one_of_subbyte f hsubt
      omega
  · -- five or more bytes: from_bytes panics
    rw [Pixel.fromBytes, hn] at hp
    exact absurd hp (by simp)

/-- Witness for C3 (amended): decoding `[1, 2, 3, 4]` as little-endian
ARGB32 and inserting over the buffer `[9, 9, 9, 9]` reproduces
`[1, 2, 3, 4]`; and the sub-byte part instantiates at A1 with
`b0 = 0b1000`, index 3 over the buffer `[255]`. -/
theorem roundtrip_little_endian_amended_witness :
    (Pixel.insert ⟨.nonFloat 67305985 0, fmtARGB32, .Little⟩ [9, 9, 9, 9]).take
          fmtARGB32.bytes
        = List.take fmtARGB32.bytes [1, 2, 3, 4]
      ∧ (Pixel.insert ⟨.nonFloat 8 3, fmtA1, .Little⟩ [255]).headD 0
          &&& subbyteMask fmtA1 3
        = 8 &&& subbyteMask fmtA1 3 :=
  ⟨(roundtrip_little_endian_amended fmtARGB32 1 2 3 4 0 [9, 9, 9, 9] _
      (by decide) (by decide) (by decide) (by decide) rfl).1 (by decide),
    ((roundtrip_little_endian_amended fmtA1 8 0 0 0 3 [255] _
      (by decide) (by decide) (by decide) (by decide) rfl).2 (by decide) (by decide)
      255 [] rfl).1⟩

/-- C8 counterexample: the claim says `new_with_float` stores
`round(v * 255)`, but the Rust cast `(v * 255.0) as u8` truncates
toward zero.  At `v = 1/2` (both `0.5` and `0.5 * 255 = 127.5` are
exactly representable in `f32`, so the rational model agrees with the
source), the code stores `127` while `round(127.5) = 128`. -/
theorem new_with_float_counterexample :
    (ChannelValue.newWithFloat .Red (1 / 2)).value = 127
      ∧ round ((1 / 2 : ℚ) * 255) = 128
      ∧ (ChannelValue.newWithFloat .Red (1 / 2)).value
        ≠ (round ((1 / 2 : ℚ) * 255)).toNat := by
  have hf : ⌊(2⁻¹ * 255 : ℚ)⌋ = 127 := by
    rw [Int.floor_eq_iff]
    norm_num
  have hv : (ChannelValue.newWithFloat .Red (1 / 2)).value = 127 := by
    simp only [ChannelValue.newWithFloat, f32ToU8, one_div]
    rw [hf]
    decide
  have hr : round ((1 / 2 : ℚ) * 255) = 128 := by
    norm_num [round_eq]
  refine ⟨hv, hr, ?_⟩
  rw [hv, hr]
  decide

/-- C8 amended: for `v` in `[0, 1]`, `new_with_float(c, v)` stores the
TRUNCATION `⌊v * 255⌋` as the integer projection returned by
`value()` (and the exact `v` as the float anchor); the claim's
concrete instances `1.0 ↦ 255` and `0.0 ↦ 0` hold (see the witness)
because there truncation and rounding agree. -/
theorem new_with_float_truncates (c : Channel) (v : ℚ) (h0 : 0 ≤ v) (h1 : v ≤ 1) :
    (ChannelValue.newWithFloat c v).value = (⌊v * 255⌋).toNat
      ∧ (ChannelValue.newWithFloat c v).floatValue = some v := by
  refine ⟨?_, rfl⟩
  simp only [ChannelValue.newWithFloat, f32ToU8]
  have hnn : (0 : ℤ) ≤ ⌊v * 255⌋ :=
    Int.floor_nonneg.mpr (mul_nonneg h0 (by norm_num))
  have hle : ⌊v * 255⌋ ≤ 255 := by
    have hb : v * 255 ≤ 255 := by linarith
    calc ⌊v * 255⌋ ≤ ⌊(255 : ℚ)⌋ := Int.floor_le_floor hb
      _ = 255 := by norm_num
  rw [min_eq_right hle, max_eq_right hnn]

/-- Witness for C8 (amended): at `v = 1.0` the stored value is 255 and
at `v = 0.0` it is 0, via the amended theorem. -/
theorem new_with_float_truncates_witness :
    ((0 : ℚ) ≤ 1 ∧ (1 : ℚ) ≤ 1)
      ∧ (ChannelValue.newWithFloat .Red 1).value = 255
      ∧ (ChannelValue.newWithFloat .Red 0).value = 0 := by
  refine ⟨⟨by norm_num, le_refl 1⟩, ?_, ?_⟩
  · have h := (new_with_float_truncates .Red 1 (by norm_num) (le_refl 1)).1
    rw [h, show ⌊(1 : ℚ) * 255⌋ = 255 from by norm_num]
    rfl
  · have h := (new_with_float_truncates .Red 0 (le_refl 0) (by norm_num)).1
    rw [h, show ⌊(0 : ℚ) * 255⌋ = 0 from by norm_num]
    rfl

end Genimage
